import Mathlib

/-!
Verification of the log-anomaly-detector classification-and-aggregation core.

The definitions below are a shallow embedding of the TypeScript source:
`src/frontend/src/utils/severity.ts` (score normalizer and severity classifier)
and the chart/drill-down logic of the Visualizations page
(`getTimeSeriesData`, `getServiceData`, `getCategoryData`,
`handleServiceClick`, `handleCategoryClick`).

Modelling conventions:
* JavaScript numbers are modelled as rationals.  Every numeric literal in the
  embedded code paths (the thresholds -0.5, -0.2, -0.05, 0, the factors 4.5 and
  10) and every score appearing in a concrete theorem below is a dyadic or
  exactly representable value on which IEEE double arithmetic is exact, so the
  rational model agrees with the JavaScript evaluation on everything proved here.
* `Math.round x` is `⌊x + 1/2⌋` (JavaScript rounds half toward +infinity).
* Strings are Lean strings; `String.prototype.toLowerCase` and
  `String.prototype.includes` are modelled character-wise (`toLowerStr`,
  `containsSub`); the keyword matching in the source is pure ASCII.
* A JavaScript object used as a counter (`acc[k] = (acc[k] || 0) + 1`) is
  modelled as an insertion-ordered association list (`bump`).  `Object.entries`
  enumerates canonical array-index keys first, in ascending numeric order, and
  the remaining string keys in insertion order; `entriesOf` models this.
* `Array.prototype.sort` is a stable sort (ES2019); `stableSortBy le` is a
  stable insertion sort where `le a b` means the comparator allows `a` to stay
  before `b` (comparator result ≤ 0).
-/

/-- The `LogEntry` interface of the api module (appended to
`src/frontend/src/pages/About.tsx`): `id`, `serviceName` and `message` are
strings, `timestamp` is epoch milliseconds, `isAnomaly` a boolean, and
`score` a number, modelled as a rational. -/
structure LogEntry where
  id : String
  serviceName : String
  message : String
  timestamp : Int
  isAnomaly : Bool
  score : ℚ
deriving DecidableEq

/-- Character-wise lower casing, the ASCII behaviour of `toLowerCase`. -/
def toLowerStr (s : String) : String := ⟨s.data.map Char.toLower⟩

/-- Boolean test that one character list starts with another. -/
def isPrefixB : List Char → List Char → Bool
  | [], _ => true
  | _ :: _, [] => false
  | p :: ps, h :: hs => p == h && isPrefixB ps hs

/-- Boolean substring search on character lists. -/
def strHas : List Char → List Char → Bool
  | [], pat => pat.isEmpty
  | h :: t, pat => isPrefixB pat (h :: t) || strHas t pat

/-- JavaScript `s.includes(pat)`. -/
def containsSub (s pat : String) : Bool := strHas s.data pat.data

/-- JavaScript `Math.round`: round half toward positive infinity. -/
def jsRound (q : ℚ) : ℤ := ⌊q + 1/2⌋

/-- severity.ts: `Math.max(-1, Math.min(1, rawScore))`. -/
def clampScore (rawScore : ℚ) : ℚ := max (-1) (min 1 rawScore)

/-- severity.ts `convertToTenScale`: clamp to [-1, 1], apply
`10 - ((clamped + 1) * 4.5)`, round to one decimal place with `Math.round`. -/
def convertToTenScale (rawScore : ℚ) : ℚ :=
  (jsRound ((10 - ((clampScore rawScore + 1) * 4.5)) * 10) : ℚ) / 10

/-- Rounding half away from zero, the wording used by the spec for the
rounding step of the normalizer (compared against `jsRound` below). -/
def roundHalfAwayFromZero (q : ℚ) : ℤ :=
  if q < 0 then -⌊-q + 1/2⌋ else ⌊q + 1/2⌋

/-- The normalizer as the spec words it: identical linear map, but rounding
half away from zero. -/
def convertToTenScaleSpec (rawScore : ℚ) : ℚ :=
  (roundHalfAwayFromZero ((10 - ((clampScore rawScore + 1) * 4.5)) * 10) : ℚ) / 10

inductive SeverityLevel
  | critical
  | severe
  | moderate
  | low
  | normal
deriving DecidableEq

/-- severity.ts `Severity`: the tier together with its display style tokens. -/
structure Severity where
  level : SeverityLevel
  label : String
  color : String
  bgColor : String
  borderColor : String
deriving DecidableEq

/-- severity.ts `getSeverity`: ordered threshold checks, first match wins; the
`_isAnomaly` argument is accepted and ignored, as in the source. -/
def getSeverity (score : ℚ) (_isAnomaly : Bool) : Severity :=
  if score < -0.5 then
    ⟨.critical, "Critical", "#ef4444", "rgba(239, 68, 68, 0.15)", "rgba(239, 68, 68, 0.4)"⟩
  else if score < -0.2 then
    ⟨.severe, "Severe", "#f97316", "rgba(249, 115, 22, 0.15)", "rgba(249, 115, 22, 0.3)"⟩
  else if score < -0.05 then
    ⟨.moderate, "Moderate", "#fbbf24", "rgba(251, 191, 36, 0.15)", "rgba(251, 191, 36, 0.3)"⟩
  else if score < 0 then
    ⟨.low, "Low", "#60a5fa", "rgba(96, 165, 250, 0.15)", "rgba(96, 165, 250, 0.3)"⟩
  else
    ⟨.normal, "Normal", "#6ee7b7", "rgba(16, 185, 129, 0.15)", "rgba(16, 185, 129, 0.3)"⟩

/-- Numeric rank of a severity tier: larger means more severe. -/
def severityRank : SeverityLevel → ℕ
  | .critical => 4
  | .severe => 3
  | .moderate => 2
  | .low => 1
  | .normal => 0

/-- The category rule of `getCategoryData` in the Visualizations page:
lower-case the message, then ordered substring rules, first match wins,
defaulting to `"Other"`. -/
def categorize (message : String) : String :=
  let msg := toLowerStr message
  if containsSub msg "error" || containsSub msg "exception" then "Errors"
  else if containsSub msg "timeout" then "Timeouts"
  else if containsSub msg "connection" || containsSub msg "unavailable" then "Connection Issues"
  else if containsSub msg "fail" then "Failures"
  else "Other"

/-- One step of the JavaScript counting idiom `acc[k] = (acc[k] || 0) + 1` on
an insertion-ordered association list: increment in place, or append `(k, 1)`. -/
def bump {κ : Type} [DecidableEq κ] : List (κ × ℕ) → κ → List (κ × ℕ)
  | [], k => [(k, 1)]
  | (k', v) :: rest, k =>
    if k' = k then (k', v + 1) :: rest else (k', v) :: bump rest k

/-- The count stored for a key (0 when absent). -/
def valOf {κ : Type} [DecidableEq κ] : List (κ × ℕ) → κ → ℕ
  | [], _ => 0
  | (k', v) :: rest, k => if k' = k then v else valOf rest k

/-- Stable insertion: `x` is placed before the first element that is not
strictly ahead of it under the comparator order. -/
def insertB {α : Type} (le : α → α → Bool) (x : α) : List α → List α
  | [] => [x]
  | y :: ys => if le y x && !le x y then y :: insertB le x ys else x :: y :: ys

/-- Stable sort, the guarantee of `Array.prototype.sort` with a consistent
comparator: `le a b` means the comparator lets `a` stay before `b`. -/
def stableSortBy {α : Type} (le : α → α → Bool) : List α → List α
  | [] => []
  | x :: xs => insertB le x (stableSortBy le xs)

/-- Decimal value of a digit string. -/
def digitsToNat : List Char → ℕ → ℕ
  | [], acc => acc
  | c :: cs, acc => digitsToNat cs (acc * 10 + (c.toNat - 48))

/-- Whether a string is a canonical array-index key in the sense of the
ECMAScript own-property enumeration order: the canonical decimal form of an
integer below 2^32 - 1. -/
def isArrayIndex (s : String) : Bool :=
  match s.data with
  | [] => false
  | c :: cs =>
    (c :: cs).all (fun d => d.isDigit) && (c != '0' || cs.isEmpty) &&
      decide (digitsToNat (c :: cs) 0 < 4294967295)

/-- `Object.entries` on a string-keyed object: canonical array-index keys
first, in ascending numeric order, then the remaining keys in insertion
order. -/
def entriesOf (r : List (String × ℕ)) : List (String × ℕ) :=
  stableSortBy (fun a b => decide (digitsToNat a.1.data 0 ≤ digitsToNat b.1.data 0))
      (r.filter fun p => isArrayIndex p.1)
    ++ r.filter fun p => !isArrayIndex p.1

/-- Visualizations page `getServiceData`, grouping step: count per service. -/
def serviceGroups (anomalies : List LogEntry) : List (String × ℕ) :=
  anomalies.foldl (fun acc log => bump acc log.serviceName) []

/-- Visualizations page `getServiceData`, `Object.entries` of the groups. -/
def serviceEntries (anomalies : List LogEntry) : List (String × ℕ) :=
  entriesOf (serviceGroups anomalies)

/-- Visualizations page `getServiceData`, `.sort((a, b) => b.count - a.count)`:
stable sort, descending by count. -/
def serviceSorted (anomalies : List LogEntry) : List (String × ℕ) :=
  stableSortBy (fun a b => decide (b.2 ≤ a.2)) (serviceEntries anomalies)

/-- Visualizations page `getServiceData`: top five services by count. -/
def getServiceData (anomalies : List LogEntry) : List (String × ℕ) :=
  (serviceSorted anomalies).take 5

/-- Visualizations page `getCategoryData`, grouping step: count per category
name. -/
def categoryGroups (anomalies : List LogEntry) : List (String × ℕ) :=
  anomalies.foldl (fun acc log => bump acc (categorize log.message)) []

/-- Visualizations page `getCategoryData`: category name / count pairs in
`Object.entries` order (no truncation, no sorting). -/
def getCategoryData (anomalies : List LogEntry) : List (String × ℕ) :=
  entriesOf (categoryGroups anomalies)

/-- Visualizations page `getTimeSeriesData`, grouping step.  The local-time
calendar date of a timestamp (`new Date(ts).toLocaleDateString()`) is
abstracted as a function `day : Int → ℤ`; two timestamps land in the same
bucket exactly when they have the same local date, and the later comparison
`new Date(a.date).getTime()` is order-isomorphic to the date itself, so
buckets are keyed directly by the abstract day value.  Date strings such as
"10/12/2026" are never canonical array indices, so `Object.entries` returns
the groups in insertion order, which the association list already is. -/
def timeGroups (day : Int → ℤ) (anomalies : List LogEntry) : List (ℤ × ℕ) :=
  anomalies.foldl (fun acc log => bump acc (day log.timestamp)) []

/-- Visualizations page `getTimeSeriesData`, the ascending chronological
sort. -/
def timeSorted (day : Int → ℤ) (anomalies : List LogEntry) : List (ℤ × ℕ) :=
  stableSortBy (fun a b => decide (a.1 ≤ b.1)) (timeGroups day anomalies)

/-- Visualizations page `getTimeSeriesData`: `.slice(-10)`, the last ten
buckets of the ascending-sorted list. -/
def getTimeSeriesData (day : Int → ℤ) (anomalies : List LogEntry) : List (ℤ × ℕ) :=
  (timeSorted day anomalies).drop ((timeSorted day anomalies).length - 10)

/-- Visualizations page `handleServiceClick`: keep the records of the selected
service. -/
def handleServiceClick (anomalies : List LogEntry) (serviceName : String) : List LogEntry :=
  anomalies.filter fun a => a.serviceName == serviceName

/-- The filter predicate of `handleCategoryClick`, translated clause by
clause: a sequence of guarded `return true` statements, a computed return for
`"Other"`, and a final `return false`. -/
def categoryClickPred (category : String) (a : LogEntry) : Bool :=
  let msg := toLowerStr a.message
  if category == "Errors" && (containsSub msg "error" || containsSub msg "exception") then true
  else if category == "Timeouts" && containsSub msg "timeout" then true
  else if category == "Connection Issues" && (containsSub msg "connection" || containsSub msg "unavailable") then true
  else if category == "Failures" && containsSub msg "fail" then true
  else if category == "Other" then
    !containsSub msg "error" && !containsSub msg "exception" && !containsSub msg "timeout" &&
      !containsSub msg "connection" && !containsSub msg "unavailable" && !containsSub msg "fail"
  else false

/-- Visualizations page `handleCategoryClick`: filter by the category
predicate above. -/
def handleCategoryClick (anomalies : List LogEntry) (category : String) : List LogEntry :=
  anomalies.filter (categoryClickPred category)

/-- A snapshot with a message matching only the Timeouts rule and a message
matching both the Errors and the Timeouts keywords. -/
def exC1 : List LogEntry :=
  [⟨"1", "api", "timeout occurred", 0, true, -0.3⟩,
   ⟨"2", "api", "error timeout", 0, true, -0.3⟩]

/-- The three-record end-to-end scenario of the spec. -/
def exC2 : List LogEntry :=
  [⟨"1", "auth", "fatal exception in handler", 0, true, -0.6⟩,
   ⟨"2", "auth", "ok", 0, true, 0.2⟩,
   ⟨"3", "billing", "connection unavailable", 0, true, -0.1⟩]

/-- A snapshot with two numeric-looking service names, first encountered in
the order "2", "1", with equal counts. -/
def exC6 : List LogEntry :=
  [⟨"a", "2", "m", 0, true, 0⟩,
   ⟨"b", "1", "m", 0, true, 0⟩]

/-- A one-record snapshot used to witness the unknown-category filter. -/
def exC10 : List LogEntry := [⟨"1", "svc", "error", 0, true, 0⟩]

/-! ### Generic facts about the stable sort and the counting map -/

theorem insertB_perm {α : Type} (le : α → α → Bool) (x : α) (l : List α) :
    (insertB le x l).Perm (x :: l) := by
  induction l with
  | nil => simp [insertB]
  | cons y ys ih =>
    by_cases hc : (le y x && !le x y) = true
    · simp only [insertB]
      rw [if_pos hc]
      exact (ih.cons y).trans (List.Perm.swap x y ys)
    · simp only [insertB]
      rw [if_neg hc]

theorem stableSortBy_perm {α : Type} (le : α → α → Bool) (l : List α) :
    (stableSortBy le l).Perm l := by
  induction l with
  | nil => simp [stableSortBy]
  | cons x xs ih => exact (insertB_perm le x _).trans (ih.cons x)

theorem insertB_pairwise {α : Type} {le : α → α → Bool}
    (htot : ∀ a b, le a b = true ∨ le b a = true)
    (htrans : ∀ a b c, le a b = true → le b c = true → le a c = true)
    (x : α) {l : List α} (h : l.Pairwise fun a b => le a b = true) :
    (insertB le x l).Pairwise fun a b => le a b = true := by
  induction l with
  | nil => simp [insertB]
  | cons y ys ih =>
    rw [List.pairwise_cons] at h
    obtain ⟨hy, hys⟩ := h
    by_cases hc : (le y x && !le x y) = true
    · rw [Bool.and_eq_true, Bool.not_eq_true'] at hc
      simp only [insertB]
      rw [if_pos (by simp [hc.1, hc.2])]
      rw [List.pairwise_cons]
      refine ⟨?_, ih hys⟩
      intro z hz
      rcases List.mem_cons.mp ((insertB_perm le x ys).subset hz) with rfl | hz'
      · exact hc.1
      · exact hy z hz'
    · have hxy : le x y = true := by
        rcases htot x y with h' | h'
        · exact h'
        · rcases Bool.not_eq_true _ ▸ hc with _
          by_cases hsp : le x y = true
          · exact hsp
          · exact absurd (by simp [h', hsp]) hc
      simp only [insertB]
      rw [if_neg hc]
      rw [List.pairwise_cons]
      refine ⟨?_, List.pairwise_cons.mpr ⟨hy, hys⟩⟩
      intro z hz
      rcases List.mem_cons.mp hz with rfl | hz'
      · exact hxy
      · exact htrans x y z hxy (hy z hz')

theorem stableSortBy_pairwise {α : Type} {le : α → α → Bool}
    (htot : ∀ a b, le a b = true ∨ le b a = true)
    (htrans : ∀ a b c, le a b = true → le b c = true → le a c = true)
    (l : List α) :
    (stableSortBy le l).Pairwise fun a b => le a b = true := by
  induction l with
  | nil => simp [stableSortBy]
  | cons x xs ih => exact insertB_pairwise htot htrans x ih

theorem filter_insertB_pos {α : Type} {le : α → α → Bool} {p : α → Bool} {x : α}
    (hx : p x = true)
    (hstop : ∀ y, p y = true → (le y x && !le x y) = false) :
    ∀ l : List α, (insertB le x l).filter p = x :: l.filter p := by
  intro l
  induction l with
  | nil => simp [insertB, hx]
  | cons y ys ih =>
    by_cases hc : (le y x && !le x y) = true
    · have hpy : p y = false := by
        cases hpy : p y
        · rfl
        · exact absurd hc (by simp [hstop y hpy])
      simp only [insertB]
      rw [if_pos hc]
      simp [List.filter_cons, hpy, ih]
    · simp only [insertB]
      rw [if_neg hc]
      simp [List.filter_cons, hx]

theorem filter_insertB_neg {α : Type} {le : α → α → Bool} {p : α → Bool} {x : α}
    (hx : p x = false) :
    ∀ l : List α, (insertB le x l).filter p = l.filter p := by
  intro l
  induction l with
  | nil => simp [insertB, hx]
  | cons y ys ih =>
    by_cases hc : (le y x && !le x y) = true
    · simp only [insertB]
      rw [if_pos hc]
      simp [List.filter_cons, ih]
    · simp only [insertB]
      rw [if_neg hc]
      simp [List.filter_cons, hx]

theorem stableSortBy_filter {α : Type} {le : α → α → Bool} {p : α → Bool}
    (h : ∀ x y, p x = true → p y = true → (le y x && !le x y) = false) :
    ∀ l : List α, (stableSortBy le l).filter p = l.filter p := by
  intro l
  induction l with
  | nil => rfl
  | cons x xs ih =>
    cases hx : p x
    · simp only [stableSortBy]
      rw [filter_insertB_neg hx, ih, List.filter_cons, hx]
      simp
    · simp only [stableSortBy]
      rw [filter_insertB_pos hx (fun y hy => h x y hx hy), ih, List.filter_cons, hx]
      simp

theorem valOf_bump {κ : Type} [DecidableEq κ] (r : List (κ × ℕ)) (k k' : κ) :
    valOf (bump r k) k' = valOf r k' + (if k = k' then 1 else 0) := by
  induction r with
  | nil => by_cases h : k = k' <;> simp [bump, valOf, h]
  | cons hd rest ih =>
    obtain ⟨a, v⟩ := hd
    by_cases hak : a = k
    · subst hak
      by_cases hak' : a = k' <;> simp [bump, valOf, hak', ih]
    · by_cases hak' : a = k'
      · subst hak'
        have : ¬ k = a := fun h => hak h.symm
        simp [bump, valOf, hak, this]
      · simp [bump, valOf, hak, hak', ih]

theorem sum_bump {κ : Type} [DecidableEq κ] (r : List (κ × ℕ)) (k : κ) :
    ((bump r k).map fun p => p.2).sum = ((r.map fun p => p.2).sum) + 1 := by
  induction r with
  | nil => simp [bump]
  | cons hd rest ih =>
    obtain ⟨a, v⟩ := hd
    by_cases hak : a = k <;> simp [bump, hak, ih] <;> omega

theorem keys_bump {κ : Type} [DecidableEq κ] (r : List (κ × ℕ)) (k : κ) :
    (bump r k).map (fun p => p.1) =
      if k ∈ r.map (fun p => p.1) then r.map (fun p => p.1)
      else r.map (fun p => p.1) ++ [k] := by
  induction r with
  | nil => simp [bump]
  | cons hd rest ih =>
    obtain ⟨a, v⟩ := hd
    by_cases hak : a = k
    · subst hak
      simp [bump]
    · have hka : ¬ k = a := fun h => hak h.symm
      by_cases hk : k ∈ rest.map (fun p => p.1) <;>
        simp [bump, hak, hka, hk, ih]

theorem nodup_keys_bump {κ : Type} [DecidableEq κ] {r : List (κ × ℕ)}
    (h : (r.map fun p => p.1).Nodup) (k : κ) :
    ((bump r k).map fun p => p.1).Nodup := by
  rw [keys_bump]
  by_cases hk : k ∈ r.map (fun p => p.1)
  · simpa [hk] using h
  · simp [hk, List.nodup_append, h]

theorem nodup_keys_foldl {κ β : Type} [DecidableEq κ] (f : β → κ) (logs : List β) :
    ∀ r0 : List (κ × ℕ), ((r0.map fun p => p.1).Nodup) →
      (((logs.foldl (fun acc b => bump acc (f b)) r0).map fun p => p.1).Nodup) := by
  induction logs with
  | nil => intro r0 h; simpa using h
  | cons b bs ih => intro r0 h; exact ih _ (nodup_keys_bump h (f b))

theorem valOf_of_mem {κ : Type} [DecidableEq κ] :
    ∀ {r : List (κ × ℕ)}, (r.map fun p => p.1).Nodup →
      ∀ {k : κ} {v : ℕ}, (k, v) ∈ r → valOf r k = v := by
  intro r
  induction r with
  | nil => intro _ k v hm; simp at hm
  | cons hd rest ih =>
    obtain ⟨a, w⟩ := hd
    intro h k v hm
    rw [List.map_cons, List.nodup_cons] at h
    obtain ⟨ha, hrest⟩ := h
    rcases List.mem_cons.mp hm with heq | hm'
    · rw [Prod.mk.injEq] at heq
      obtain ⟨rfl, rfl⟩ := heq
      simp [valOf]
    · have hak : ¬ a = k := by
        intro hh
        subst hh
        exact ha (List.mem_map.mpr ⟨(a, v), hm', rfl⟩)
      simp [valOf, hak, ih hrest hm']

theorem valOf_foldl_bump {κ β : Type} [DecidableEq κ] (f : β → κ) (k : κ) :
    ∀ (logs : List β) (r0 : List (κ × ℕ)),
      valOf (logs.foldl (fun acc b => bump acc (f b)) r0) k
        = valOf r0 k + logs.countP (fun b => decide (f b = k)) := by
  intro logs
  induction logs with
  | nil => intro r0; simp
  | cons b bs ih =>
    intro r0
    rw [List.foldl_cons, ih, valOf_bump, List.countP_cons]
    by_cases h : f b = k
    · simp [h]
      omega
    · simp [h]

theorem sum_foldl_bump {κ β : Type} [DecidableEq κ] (f : β → κ) :
    ∀ (logs : List β) (r0 : List (κ × ℕ)),
      (((logs.foldl (fun acc b => bump acc (f b)) r0).map fun p => p.2).sum)
        = ((r0.map fun p => p.2).sum) + logs.length := by
  intro logs
  induction logs with
  | nil => intro r0; simp
  | cons b bs ih =>
    intro r0
    rw [List.foldl_cons, ih, sum_bump]
    simp
    omega

theorem entriesOf_perm (r : List (String × ℕ)) : (entriesOf r).Perm r := by
  unfold entriesOf
  exact ((stableSortBy_perm _ _).append_right _).trans (List.filter_append_perm _ r)

/-! ### Severity classifier -/

theorem getSeverity_level_eq (s : ℚ) (b : Bool) :
    (getSeverity s b).level =
      if s < -0.5 then .critical
      else if s < -0.2 then .severe
      else if s < -0.05 then .moderate
      else if s < 0 then .low
      else .normal := by
  unfold getSeverity
  split_ifs <;> rfl

/-- C3: the severity classifier evaluates its five threshold conditions in
order with first match winning — equivalently, each tier is exactly an
interval of scores — and boundary values fall into the less severe tier:
`getSeverity (-0.5)` is severe (not critical), `getSeverity (-0.2)` is
moderate, and `getSeverity 0` is normal. -/
theorem c3_severity_threshold_order (s : ℚ) (b : Bool) :
    ((getSeverity s b).level = .critical ↔ s < -0.5)
    ∧ ((getSeverity s b).level = .severe ↔ -0.5 ≤ s ∧ s < -0.2)
    ∧ ((getSeverity s b).level = .moderate ↔ -0.2 ≤ s ∧ s < -0.05)
    ∧ ((getSeverity s b).level = .low ↔ -0.05 ≤ s ∧ s < 0)
    ∧ ((getSeverity s b).level = .normal ↔ 0 ≤ s)
    ∧ (getSeverity (-0.5 : ℚ) b).level = .severe
    ∧ (getSeverity (-0.2 : ℚ) b).level = .moderate
    ∧ (getSeverity (0 : ℚ) b).level = .normal := by
  refine ⟨?_, ?_, ?_, ?_, ?_,
      by rw [getSeverity_level_eq]; norm_num,
      by rw [getSeverity_level_eq]; norm_num,
      by rw [getSeverity_level_eq]; norm_num⟩ <;>
    (rw [getSeverity_level_eq]; split_ifs with h1 h2 h3 h4 <;> simp <;>
      first
        | linarith
        | (constructor <;> linarith)
        | (intro hh; linarith))

/-- C8: severity tiers are monotonically ordered by score: a strictly smaller
score never gets a strictly less severe tier, under the rank
critical > severe > moderate > low > normal. -/
theorem c8_severity_rank_monotone (s1 s2 : ℚ) (b1 b2 : Bool) (h : s1 < s2) :
    severityRank (getSeverity s2 b2).level ≤ severityRank (getSeverity s1 b1).level := by
  rw [getSeverity_level_eq, getSeverity_level_eq]
  split_ifs <;> simp [severityRank] <;> linarith

/-- Witness for C8 at the concrete pair of scores -1 < 0. -/
theorem c8_severity_rank_monotone_witness :
    severityRank (getSeverity 0 true).level ≤ severityRank (getSeverity (-1) true).level :=
  c8_severity_rank_monotone (-1) 0 true true (by norm_num)

/-! ### Score normalizer -/

/-- C4: the score normalizer clamps to [-1, 1], applies
`10 - ((clamped + 1) * 4.5)` and rounds to one decimal place; on this
pipeline the code's `Math.round` coincides with round-half-away-from-zero
(the rounded quantity is always nonnegative), the four sample values of the
claim hold, and the function is monotonically non-increasing on [-1, 1]. -/
theorem c4_ten_scale_contract :
    (∀ s : ℚ, convertToTenScale s = convertToTenScaleSpec s)
    ∧ convertToTenScale (-1) = 10
    ∧ convertToTenScale 0 = 5.5
    ∧ convertToTenScale 1 = 1
    ∧ convertToTenScale (-0.5) = 7.8
    ∧ ∀ s1 s2 : ℚ, -1 ≤ s1 → s1 ≤ s2 → s2 ≤ 1 →
        convertToTenScale s2 ≤ convertToTenScale s1 := by
  refine ⟨?_, ?_, ?_, ?_, ?_, ?_⟩
  · intro s
    have hc1 : clampScore s ≤ 1 := max_le (by norm_num) (min_le_left _ _)
    have hq : (0 : ℚ) ≤ (10 - ((clampScore s + 1) * 4.5)) * 10 := by nlinarith
    unfold convertToTenScale convertToTenScaleSpec roundHalfAwayFromZero jsRound
    rw [if_neg (not_lt.mpr hq)]
  · norm_num [convertToTenScale, clampScore, jsRound, min_def, max_def]
  · norm_num [convertToTenScale, clampScore, jsRound, min_def, max_def]
  · norm_num [convertToTenScale, clampScore, jsRound, min_def, max_def]
  · norm_num [convertToTenScale, clampScore, jsRound, min_def, max_def]
  · intro s1 s2 hl h12 hr1
    have hcl : clampScore s1 ≤ clampScore s2 :=
      max_le_max (le_refl _) (min_le_min (le_refl _) h12)
    have hfl : jsRound ((10 - ((clampScore s2 + 1) * 4.5)) * 10)
        ≤ jsRound ((10 - ((clampScore s1 + 1) * 4.5)) * 10) := by
      unfold jsRound
      exact Int.floor_le_floor (by linarith)
    have hc : ((jsRound ((10 - ((clampScore s2 + 1) * 4.5)) * 10) : ℤ) : ℚ)
        ≤ ((jsRound ((10 - ((clampScore s1 + 1) * 4.5)) * 10) : ℤ) : ℚ) := by
      exact_mod_cast hfl
    unfold convertToTenScale
    linarith

/-- Witness for C4 at the concrete pair of scores -1 ≤ 0. -/
theorem c4_ten_scale_contract_witness :
    convertToTenScale 0 ≤ convertToTenScale (-1) :=
  c4_ten_scale_contract.2.2.2.2.2 (-1) 0 (by norm_num) (by norm_num) (by norm_num)

/-! ### Category classifier and category aggregate -/

/-- C5: category classification is a total function on messages applying the
case-insensitive substring rules in fixed priority order with first match
winning (each category is exactly characterised by its rule firing and all
higher-priority rules not firing); "connection error occurred" is Errors and
"random informational text" is Other. -/
theorem c5_category_rule_order (m : String) :
    (categorize m = "Errors"
      ↔ (containsSub (toLowerStr m) "error" || containsSub (toLowerStr m) "exception") = true)
    ∧ (categorize m = "Timeouts"
      ↔ (containsSub (toLowerStr m) "error" || containsSub (toLowerStr m) "exception") = false
        ∧ containsSub (toLowerStr m) "timeout" = true)
    ∧ (categorize m = "Connection Issues"
      ↔ (containsSub (toLowerStr m) "error" || containsSub (toLowerStr m) "exception") = false
        ∧ containsSub (toLowerStr m) "timeout" = false
        ∧ (containsSub (toLowerStr m) "connection" || containsSub (toLowerStr m) "unavailable") = true)
    ∧ (categorize m = "Failures"
      ↔ (containsSub (toLowerStr m) "error" || containsSub (toLowerStr m) "exception") = false
        ∧ containsSub (toLowerStr m) "timeout" = false
        ∧ (containsSub (toLowerStr m) "connection" || containsSub (toLowerStr m) "unavailable") = false
        ∧ containsSub (toLowerStr m) "fail" = true)
    ∧ (categorize m = "Other"
      ↔ (containsSub (toLowerStr m) "error" || containsSub (toLowerStr m) "exception") = false
        ∧ containsSub (toLowerStr m) "timeout" = false
        ∧ (containsSub (toLowerStr m) "connection" || containsSub (toLowerStr m) "unavailable") = false
        ∧ containsSub (toLowerStr m) "fail" = false)
    ∧ categorize "connection error occurred" = "Errors"
    ∧ categorize "random informational text" = "Other" := by
  refine ⟨?_, ?_, ?_, ?_, ?_, by decide, by decide⟩ <;>
    (simp only [categorize]; split_ifs with h1 h2 h3 h4 <;> simp_all <;> (intros; simp_all))

/-- C9: the category aggregator assigns every record to exactly one bucket,
so the bucket counts of `getCategoryData` sum to the number of records. -/
theorem c9_category_counts_sum (anomalies : List LogEntry) :
    ((getCategoryData anomalies).map fun b => b.2).sum = anomalies.length := by
  unfold getCategoryData
  rw [((entriesOf_perm (categoryGroups anomalies)).map fun p => p.2).sum_eq]
  unfold categoryGroups
  simpa using sum_foldl_bump (fun log : LogEntry => categorize log.message) anomalies []

/-- C10: the category cross-filter returns the empty list for every category
name that is none of the five known names: every guard of its predicate
fails, so the final `return false` rejects every record. -/
theorem c10_unknown_category_filters_nothing (anomalies : List LogEntry) (category : String)
    (h1 : category ≠ "Errors") (h2 : category ≠ "Timeouts")
    (h3 : category ≠ "Connection Issues") (h4 : category ≠ "Failures")
    (h5 : category ≠ "Other") :
    handleCategoryClick anomalies category = [] := by
  unfold handleCategoryClick
  rw [List.filter_eq_nil_iff]
  intro a _
  simp [categoryClickPred, h1, h2, h3, h4, h5]

/-- Witness for C10 at the concrete unknown name "Latency". -/
theorem c10_unknown_category_filters_nothing_witness :
    handleCategoryClick exC10 "Latency" = [] :=
  c10_unknown_category_filters_nothing exC10 "Latency" (by decide) (by decide) (by decide)
    (by decide) (by decide)

/-! ### Aggregation versus cross-filtering -/

/-- C1: the code violates the bucket-reproducibility invariant.  On `exC1`
the category aggregate produces the bucket ("Timeouts", 1) — only the first
record first-matches the timeout rule — but clicking "Timeouts" filters with
the bare predicate `message contains "timeout"`, which also keeps the second
record (aggregated under Errors), returning 2 records for a bucket whose
count is 1. -/
theorem c1_category_filter_bucket_mismatch :
    getCategoryData exC1 = [("Timeouts", 1), ("Errors", 1)]
    ∧ (handleCategoryClick exC1 "Timeouts").length = 2 := by
  constructor
  · decide
  · decide

/-- C2: refuted at the third record of the end-to-end scenario — its score
-0.1 satisfies `score < -0.05`, so the classifier yields moderate where the
claim expects low. -/
theorem c2_scenario_counterexample :
    exC2.map (fun r => (getSeverity r.score r.isAnomaly).level)
      ≠ [SeverityLevel.critical, SeverityLevel.normal, SeverityLevel.low] := by
  have hmod : (getSeverity (-0.1 : ℚ) true).level = SeverityLevel.moderate := by
    rw [getSeverity_level_eq]
    norm_num
  intro h
  simp [exC2] at h
  exact absurd (hmod.symm.trans h.2.2) (by decide)

/-- C2 (amended): the end-to-end scenario yields severity tiers
[critical, normal, moderate] — moderate, not low, for the third record —
category buckets Errors, Other and Connection Issues with count 1 each, and
service buckets [(auth, 2), (billing, 1)]. -/
theorem c2_scenario_amended :
    exC2.map (fun r => (getSeverity r.score r.isAnomaly).level)
      = [SeverityLevel.critical, SeverityLevel.normal, SeverityLevel.moderate]
    ∧ getCategoryData exC2 = [("Errors", 1), ("Other", 1), ("Connection Issues", 1)]
    ∧ getServiceData exC2 = [("auth", 2), ("billing", 1)] := by
  refine ⟨?_, by decide, by decide⟩
  simp only [exC2, List.map_cons, List.map_nil]
  norm_num [getSeverity_level_eq]

/-! ### Service aggregator -/

/-- C6: refuted for numeric-looking service names — with services first
encountered in the order "2" then "1" and tied counts, `getServiceData`
returns [("1", 1), ("2", 1)]: object keys that are canonical array indices
enumerate in ascending numeric order, not in first-encountered order, before
the stable sort runs. -/
theorem c6_numeric_service_tie_counterexample :
    getServiceData exC6 = [("1", 1), ("2", 1)]
    ∧ getServiceData exC6 ≠ [("2", 1), ("1", 1)] := by
  constructor
  · decide
  · decide

/-- C6 (amended): the service aggregator groups by serviceName (each bucket's
count is the number of records of that service), returns at most 5 buckets
sorted descending by count, and buckets with equal counts appear in the
object-enumeration order of the grouping map — canonical array-index service
names first in ascending numeric order, then the remaining names in
first-encountered order — which the stable sort preserves (the sorted list
filtered to any fixed count equals the enumeration order so filtered). -/
theorem c6_service_aggregate_amended (anomalies : List LogEntry) :
    (getServiceData anomalies).length ≤ 5
    ∧ (getServiceData anomalies).Pairwise (fun a b => b.2 ≤ a.2)
    ∧ (∀ b ∈ getServiceData anomalies,
        b.2 = anomalies.countP fun log => decide (log.serviceName = b.1))
    ∧ ∀ c : ℕ, (serviceSorted anomalies).filter (fun p => decide (p.2 = c))
        = (serviceEntries anomalies).filter fun p => decide (p.2 = c) := by
  have hsorted : (serviceSorted anomalies).Pairwise
      fun a b => (decide (b.2 ≤ a.2)) = true := by
    apply stableSortBy_pairwise
    · intro a b
      rcases le_total b.2 a.2 with h | h
      · exact Or.inl (by simpa using h)
      · exact Or.inr (by simpa using h)
    · intro a b c hab hbc
      simp only [decide_eq_true_eq] at hab hbc ⊢
      omega
  refine ⟨?_, ?_, ?_, ?_⟩
  · exact List.length_take_le 5 _
  · exact (List.Pairwise.sublist (List.take_sublist 5 _) hsorted).imp fun h => by simpa using h
  · intro b hb
    have hb1 : b ∈ serviceSorted anomalies := List.mem_of_mem_take hb
    have hb2 : b ∈ serviceEntries anomalies := (stableSortBy_perm _ _).mem_iff.mp hb1
    have hb3 : b ∈ serviceGroups anomalies := (entriesOf_perm _).mem_iff.mp hb2
    have hnd : ((serviceGroups anomalies).map fun p => p.1).Nodup := by
      unfold serviceGroups
      exact nodup_keys_foldl (fun log : LogEntry => log.serviceName) anomalies [] (by simp)
    have hv : valOf (serviceGroups anomalies) b.1 = b.2 :=
      valOf_of_mem hnd (by simpa using hb3)
    have hcnt : valOf (serviceGroups anomalies) b.1
        = anomalies.countP fun log => decide (log.serviceName = b.1) := by
      unfold serviceGroups
      simpa [valOf] using valOf_foldl_bump (fun log : LogEntry => log.serviceName) b.1 anomalies []
    exact hv.symm.trans hcnt
  · intro c
    unfold serviceSorted
    apply stableSortBy_filter
    intro x y hx hy
    simp only [decide_eq_true_eq] at hx hy
    simp [hx, hy]

/-! ### Time-series aggregator -/

/-- C7: the time-series aggregator groups records by the local calendar date
of their timestamp (each bucket's count is the number of records of that
date), returns at most 10 buckets in ascending date order, and every bucket
dropped by the truncation has a date no later than every bucket kept: the
ten most recent dates are retained. -/
theorem c7_time_series_buckets (day : Int → ℤ) (anomalies : List LogEntry) :
    (getTimeSeriesData day anomalies).length ≤ 10
    ∧ (getTimeSeriesData day anomalies).Pairwise (fun a b => a.1 ≤ b.1)
    ∧ (∀ b ∈ getTimeSeriesData day anomalies,
        b.2 = anomalies.countP fun log => decide (day log.timestamp = b.1))
    ∧ ∀ p ∈ timeSorted day anomalies, p ∉ getTimeSeriesData day anomalies →
        ∀ q ∈ getTimeSeriesData day anomalies, p.1 ≤ q.1 := by
  have hsorted : (timeSorted day anomalies).Pairwise
      fun a b => (decide (a.1 ≤ b.1)) = true := by
    apply stableSortBy_pairwise
    · intro a b
      rcases le_total a.1 b.1 with h | h
      · exact Or.inl (by simpa using h)
      · exact Or.inr (by simpa using h)
    · intro a b c hab hbc
      simp only [decide_eq_true_eq] at hab hbc ⊢
      omega
  refine ⟨?_, ?_, ?_, ?_⟩
  · simp only [getTimeSeriesData, List.length_drop]
    omega
  · exact (List.Pairwise.sublist (List.drop_sublist _ _) hsorted).imp fun h => by simpa using h
  · intro b hb
    have hb1 : b ∈ timeSorted day anomalies := List.mem_of_mem_drop hb
    have hb2 : b ∈ timeGroups day anomalies := (stableSortBy_perm _ _).mem_iff.mp hb1
    have hnd : ((timeGroups day anomalies).map fun p => p.1).Nodup := by
      unfold timeGroups
      exact nodup_keys_foldl (fun log : LogEntry => day log.timestamp) anomalies [] (by simp)
    have hv : valOf (timeGroups day anomalies) b.1 = b.2 :=
      valOf_of_mem hnd (by simpa using hb2)
    have hcnt : valOf (timeGroups day anomalies) b.1
        = anomalies.countP fun log => decide (day log.timestamp = b.1) := by
      unfold timeGroups
      simpa [valOf] using valOf_foldl_bump (fun log : LogEntry => day log.timestamp) b.1 anomalies []
    exact hv.symm.trans hcnt
  · intro p hp hpn q hq
    simp only [getTimeSeriesData] at hpn hq
    have hcross := (List.pairwise_append.mp
      (show (((timeSorted day anomalies).take ((timeSorted day anomalies).length - 10))
          ++ ((timeSorted day anomalies).drop ((timeSorted day anomalies).length - 10))).Pairwise
          fun a b => (decide (a.1 ≤ b.1)) = true by
        rw [List.take_append_drop]
        exact hsorted)).2.2
    have hptake : p ∈ (timeSorted day anomalies).take ((timeSorted day anomalies).length - 10) := by
      have hmem : p ∈ ((timeSorted day anomalies).take ((timeSorted day anomalies).length - 10))
          ++ ((timeSorted day anomalies).drop ((timeSorted day anomalies).length - 10)) := by
        rw [List.take_append_drop]
        exact hp
      rcases List.mem_append.mp hmem with h | h
      · exact h
      · exact absurd h hpn
    have := hcross p hptake q hq
    simpa using this

/-- Witness for the amended C6 at the concrete snapshot `exC2`: the bucket
("auth", 2) is in the output and its count is the number of "auth" records. -/
theorem c6_service_aggregate_amended_witness :
    ("auth", 2).2 = exC2.countP fun log => decide (log.serviceName = ("auth", 2).1) :=
  (c6_service_aggregate_amended exC2).2.2.1 ("auth", 2) (by decide)

/-- Witness for C7 at the identity day function and the concrete snapshot
`exC2`: all three records fall on day 0 and the bucket (0, 3) reports 3. -/
theorem c7_time_series_buckets_witness :
    ((0 : ℤ), 3).2 = exC2.countP fun log => decide ((fun t : Int => t) log.timestamp = ((0 : ℤ), 3).1) :=
  (c7_time_series_buckets (fun t => t) exC2).2.2.1 (0, 3) (by decide)
